import Mathlib

/-!
# Mail-backed log sink (`logs/writer/smtp.go`)

A shallow embedding of the `Smtp` writer of package `writer`: the header cache
built once by `NewSmtp`/`init`, and `Write`, which appends the body, hands the
whole buffer to `smtp.SendMail`, and truncates the buffer back to the header.

Go strings and byte slices are lists of bytes.  Go `int` is `Int` (buffer
lengths are far from the 64-bit range, so no wrap-around is modelled).  A Go
panic (index out of range, `Truncate` out of range, nil dereference) is `none`.
The transport `smtp.SendMail` is outside the repository: it is a parameter of
`Write`, an arbitrary function from the arguments of the call to an optional
error, and `Write` records the calls it makes.
-/

namespace writer

/-! ## Bytes and strings -/

abbrev Byte := UInt8

/-- A Go `string` (or `[]byte`): a finite sequence of bytes. -/
abbrev GoString := List Byte

/-- The bytes of a string literal of the source (Go source text is UTF-8). -/
def utf8 (s : String) : GoString := s.toList.flatMap String.utf8EncodeChar

/-- The byte `':'`. -/
def colon : Byte := 58

/-- The byte `';'`. -/
def semicolon : Byte := 59

/-! ## `strings.Join`, `strings.Split` -/

/-- Go `strings.Join(elems, sep)`: empty for no element, the element itself for
one, otherwise the first element followed by `sep ++ s` for every later `s`. -/
def Join : List GoString → GoString → GoString
  | [], _ => []
  | [a], _ => a
  | a :: rest, sep => a ++ rest.flatMap (fun s => sep ++ s)

/-- Go `strings.IndexByte(s, c)`: index of the first `c` in `s`, `none` for -1. -/
def IndexByte : GoString → Byte → Option Nat
  | [], _ => none
  | b :: rest, c => if b = c then some 0 else (IndexByte rest c).map (· + 1)

/-- Go `strings.Count(s, sep)` for a one-byte `sep`: the number of occurrences. -/
def Count : GoString → Byte → Nat
  | [], _ => 0
  | b :: rest, c => (if b = c then 1 else 0) + Count rest c

/-- The loop of Go `strings.genSplit` for a one-byte separator, with `k` the
number of iterations still allowed (`n - 1 - i`): cut at the first separator,
keep the part before it, go on after it; the remainder is the last segment. -/
def genSplitLoop (c : Byte) : Nat → GoString → List GoString
  | 0, s => [s]
  | k + 1, s =>
    match IndexByte s c with
    | none => [s]
    | some m => s.take m :: genSplitLoop c k (s.drop (m + 1))

/-- Go `strings.Split(s, sep)` for a one-byte `sep` (the call site passes
`":"`): `genSplit(s, sep, 0, -1)`, where `n = Count(s, sep) + 1`, capped at
`len(s) + 1`, and the loop runs while `i < n - 1`. -/
def Split (s : GoString) (sep : Byte) : List GoString :=
  let n := Count s sep + 1
  let n := if n > s.length + 1 then s.length + 1 else n
  genSplitLoop sep (n - 1) s

/-! ## `bytes.Buffer` -/

/-- Go `bytes.Buffer`, as the sequence of its unread bytes (the sink never
reads from the buffer, so the read offset stays 0). -/
structure Buffer where
  buf : List Byte
deriving DecidableEq, Repr

namespace Buffer

/-- Go `bytes.NewBufferString(s)`. -/
def NewBufferString (s : GoString) : Buffer := ⟨s⟩

/-- Go `b.Len()`. -/
def Len (b : Buffer) : Int := b.buf.length

/-- Go `b.Bytes()`. -/
def Bytes (b : Buffer) : List Byte := b.buf

/-- Go `b.Grow(n)`: capacity only, the contents are unchanged; panics for a
negative `n`. -/
def Grow (b : Buffer) (n : Int) : Option Buffer :=
  if n < 0 then none else some b

/-- Go `b.WriteString(s)`: appends `s`. -/
def WriteString (b : Buffer) (s : GoString) : Buffer := ⟨b.buf ++ s⟩

/-- Go `b.Write(p)`: appends `p`. -/
def Write (b : Buffer) (p : List Byte) : Buffer := ⟨b.buf ++ p⟩

/-- Go `b.Truncate(n)`: panics when `n < 0 || n > b.Len()`; resets the buffer
for `n == 0`; otherwise keeps the first `n` unread bytes. -/
def Truncate (b : Buffer) (n : Int) : Option Buffer :=
  if n < 0 ∨ n > b.Len then none
  else if n = 0 then some ⟨[]⟩
  else some ⟨b.buf.take n.toNat⟩

end Buffer

/-! ## `net/smtp` -/

/-- Go `smtp.PlainAuth(identity, username, password, host)`: the value it
returns holds its four arguments. -/
structure Auth where
  identity : GoString
  username : GoString
  password : GoString
  host : GoString
deriving DecidableEq, Repr

/-- Go `smtp.PlainAuth`. -/
def PlainAuth (identity username password host : GoString) : Auth :=
  ⟨identity, username, password, host⟩

/-- The arguments of one call `smtp.SendMail(addr, a, from, to, msg)`. -/
structure SendMailCall where
  addr : GoString
  a : Option Auth
  from_ : GoString
  to_ : List GoString
  msg : List Byte
deriving DecidableEq, Repr

/-! ## The sink -/

/-- The struct `Smtp`.  `cache` is a pointer and `auth` an interface value:
both are nil (`none`) in the zero value. -/
structure Smtp where
  username : GoString
  password : GoString
  host : GoString
  sendTo : List GoString
  subject : GoString
  cache : Option Buffer
  headerLen : Int
  auth : Option Auth
deriving DecidableEq, Repr

/-- What one call of `Write` returns and does: the sink afterwards, the two
results `(l, err)`, and the calls made to the transport, in order. -/
structure WriteResult (E : Type) where
  sink : Smtp
  n : Int
  err : Option E
  sent : List SendMailCall

namespace Smtp

/-- The method `init`: fills the cache with the header lines, records the
header length, and builds the authentication value from the host without its
port. -/
def init (s : Smtp) : Option Smtp := do
  let cache := Buffer.NewBufferString (utf8 "")
  let cache ← cache.Grow 1024
  -- to
  let cache := cache.WriteString (utf8 "To: ")
  let cache := cache.WriteString (Join s.sendTo (utf8 ";"))
  let cache := cache.WriteString (utf8 "\r\n")
  -- from
  let cache := cache.WriteString (utf8 "From: ")
  let cache := cache.WriteString s.username
  let cache := cache.WriteString (utf8 "\r\n")
  -- subject
  let cache := cache.WriteString (utf8 "Subject: ")
  let cache := cache.WriteString s.subject
  let cache := cache.WriteString (utf8 "\r\n")
  -- mime-version
  let cache := cache.WriteString (utf8 "MIME-Version: ")
  let cache := cache.WriteString (utf8 "1.0\r\n")
  -- contentType
  let cache := cache.WriteString (utf8 "Content-Type: text/plain; charset=\"utf-8\"")
  let cache := cache.WriteString (utf8 "\r\n\r\n")
  let headerLen := cache.Len
  let h ← (Split s.host colon)[0]?
  some { s with
    cache := some cache
    headerLen := headerLen
    auth := some (PlainAuth (utf8 "") s.username s.password h) }

/-- Line 96 of `Write`: `s.cache.Write(msg)`. -/
def writeAppend (s : Smtp) (msg : List Byte) : Option Smtp := do
  let c ← s.cache
  some { s with cache := some (c.Write msg) }

/-- Lines 98-104 of `Write`: the arguments handed to `smtp.SendMail`. -/
def writeCall (s : Smtp) : Option SendMailCall := do
  let c ← s.cache
  some { addr := s.host, a := s.auth, from_ := s.username, to_ := s.sendTo, msg := c.Bytes }

/-- Line 107 of `Write`: `s.cache.Truncate(s.headerLen)`. -/
def writeTruncate (s : Smtp) : Option Smtp := do
  let c ← s.cache
  let c ← c.Truncate s.headerLen
  some { s with cache := some c }

/-- The method `Write`, with the transport `SendMail` as a parameter. -/
def Write {E : Type} (s : Smtp) (msg : List Byte)
    (SendMail : SendMailCall → Option E) : Option (WriteResult E) := do
  let s1 ← s.writeAppend msg
  let call ← s1.writeCall
  let err := SendMail call
  let l := (← s1.cache).Len
  let s2 ← s1.writeTruncate
  some { sink := s2, n := l, err := err, sent := [call] }

end Smtp

/-- The function `NewSmtp`. -/
def NewSmtp (username password subject host : GoString) (sendTo : List GoString) :
    Option Smtp :=
  let ret : Smtp :=
    { username := username
      password := password
      subject := subject
      host := host
      sendTo := sendTo
      cache := none
      headerLen := 0
      auth := none }
  ret.init

/-! ## Sequences of writes -/

/-- One `Write` of a run: the body and what the transport answers. -/
abbrev Step (E : Type) := List Byte × (SendMailCall → Option E)

/-- A run of successive `Write` calls on one sink: the sink at the end and the
result of every call, in order. -/
def WriteAll {E : Type} (s : Smtp) : List (Step E) → Option (Smtp × List (WriteResult E))
  | [] => some (s, [])
  | (msg, tr) :: rest => do
    let r ← s.Write msg tr
    let (s2, rs) ← WriteAll r.sink rest
    some (s2, r :: rs)

/-- The bytes of the buffer in the range `[0, headerLen)`. -/
def headerRange (s : Smtp) : Option (List Byte) :=
  s.cache.map (fun c => c.buf.take s.headerLen.toNat)

/-- The first segment of `s` cut at the byte `c`, as the specification words
it: the bytes of `s` before its first `c`, all of `s` when it has none. -/
def firstSegment : GoString → Byte → GoString
  | [], _ => []
  | b :: rest, c => if b = c then [] else b :: firstSegment rest c

/-- The header as the specification words it: the five lines and the blank
line, with the recipients separated by `;`. -/
def specHeader (account subject : GoString) (recipients : List GoString) : GoString :=
  utf8 "To: " ++ List.intercalate [semicolon] recipients ++ utf8 "\r\n"
    ++ utf8 "From: " ++ account ++ utf8 "\r\n"
    ++ utf8 "Subject: " ++ subject ++ utf8 "\r\n"
    ++ utf8 "MIME-Version: 1.0" ++ utf8 "\r\n"
    ++ utf8 "Content-Type: text/plain; charset=\"utf-8\"" ++ utf8 "\r\n" ++ utf8 "\r\n"

/-- The sink that `NewSmtp` builds, written out field by field. -/
def builtSink (username password subject host : GoString) (sendTo : List GoString) : Smtp :=
  { username := username
    password := password
    subject := subject
    host := host
    sendTo := sendTo
    cache := some ⟨specHeader username subject sendTo⟩
    headerLen := (specHeader username subject sendTo).length
    auth := some (PlainAuth [] username password (firstSegment host colon)) }

/-- The call that a `Write` of `body` makes on the sink built from the given
construction arguments. -/
def builtCall (username password subject host : GoString) (sendTo : List GoString)
    (body : List Byte) : SendMailCall :=
  { addr := host
    a := some (PlainAuth [] username password (firstSegment host colon))
    from_ := username
    to_ := sendTo
    msg := specHeader username subject sendTo ++ body }

/-! ## Sample inputs -/

/-- A sample account. -/
def sampleAccount : GoString := utf8 "logs@example.com"

/-- A sample password. -/
def sampleSecret : GoString := utf8 "secret"

/-- A sample subject. -/
def sampleSubject : GoString := utf8 "alert"

/-- A sample relay address, with a port. -/
def sampleRelay : GoString := utf8 "smtp.example.com:587"

/-- A sample relay address, without a port. -/
def sampleRelayNoPort : GoString := utf8 "smtp.example.com"

/-- A sample list of recipients. -/
def sampleRecipients : List GoString := [utf8 "ops@xy.org"]

/-- The buffer of the sink built from the sample inputs: a header of 120 bytes. -/
def sampleHeader : Buffer :=
  ⟨specHeader sampleAccount sampleSubject sampleRecipients⟩

/-- The sink built from the sample inputs. -/
def sampleSink : Smtp :=
  builtSink sampleAccount sampleSecret sampleSubject sampleRelay sampleRecipients

/-- The sample sink with a body after its header, as inside a `Write`. -/
def samplePending : Smtp :=
  { sampleSink with cache := some (sampleHeader.Write (utf8 "hello")) }

/-- A transport that reports a failure. -/
def transportFails : SendMailCall → Option String := fun _ => some "535 authentication failed"

/-- A transport that reports success. -/
def transportOk : SendMailCall → Option String := fun _ => none

/-! ## The blank line of a message -/

/-- The byte LF. -/
def lf : Byte := 10

/-- The byte CR. -/
def cr : Byte := 13

/-- The offset just after the first occurrence of CRLF CRLF in a message, that
is the end of its first blank line; `none` when the message has none. -/
def blankLineEnd : List Byte → Option Nat
  | [] => none
  | b :: rest =>
    if (b :: rest).take 4 = [cr, lf, cr, lf] then some 4
    else (blankLineEnd rest).map (· + 1)

/-- A subject that holds a blank line. -/
def sampleSubjectBlankLine : GoString := utf8 "a\r\n\r\nb"

/-- A relay address whose host is a bracketed IPv6 literal. -/
def sampleRelayIPv6 : GoString := utf8 "[::1]:25"

/-! ## Lemmas on the library functions -/

theorem Join_eq_intercalate (elems : List GoString) (sep : GoString) :
    Join elems sep = List.intercalate sep elems := by
  match elems with
  | [] => rfl
  | [a] => simp [Join, List.intercalate]
  | a :: b :: rest =>
    have key : ∀ (l : List GoString) (x : GoString),
        x ++ l.flatMap (fun s => sep ++ s) = List.intercalate sep (x :: l) := by
      intro l
      induction l with
      | nil => intro x; simp [List.intercalate]
      | cons y ys ih =>
        intro x
        have h := ih y
        simp only [List.intercalate, List.intersperse, List.flatMap_cons, List.flatten_cons,
          List.append_assoc] at h ⊢
        rw [h]
    simpa [Join] using key (b :: rest) a

theorem IndexByte_none {s : GoString} {c : Byte} (h : IndexByte s c = none) :
    firstSegment s c = s := by
  induction s with
  | nil => rfl
  | cons b rest ih =>
    by_cases hb : b = c
    · simp [IndexByte, hb] at h
    · simp [IndexByte, hb] at h
      simp [firstSegment, hb, ih h]

theorem IndexByte_some {s : GoString} {c : Byte} {m : Nat} (h : IndexByte s c = some m) :
    s.take m = firstSegment s c := by
  induction s generalizing m with
  | nil => simp [IndexByte] at h
  | cons b rest ih =>
    by_cases hb : b = c
    · simp [IndexByte, hb] at h
      subst h
      simp [firstSegment, hb]
    · simp [IndexByte, hb] at h
      obtain ⟨k, hk, rfl⟩ := h
      simp [firstSegment, hb, ih hk]

theorem Count_zero {s : GoString} {c : Byte} (h : Count s c = 0) :
    firstSegment s c = s := by
  induction s with
  | nil => rfl
  | cons b rest ih =>
    by_cases hb : b = c
    · simp [Count, hb] at h
    · simp [Count, hb] at h
      simp [firstSegment, hb, ih h]

theorem Count_le_length (s : GoString) (c : Byte) : Count s c ≤ s.length := by
  induction s with
  | nil => simp [Count]
  | cons b rest ih =>
    simp only [Count, List.length_cons]
    split <;> omega

theorem genSplitLoop_head (c : Byte) (k : Nat) (s : GoString) (hk : k = 0 → Count s c = 0) :
    (genSplitLoop c k s)[0]? = some (firstSegment s c) := by
  cases k with
  | zero => simp [genSplitLoop, Count_zero (hk rfl)]
  | succ k =>
    simp only [genSplitLoop]
    cases hi : IndexByte s c with
    | none => simp [IndexByte_none hi]
    | some m => simp [IndexByte_some hi]

theorem Split_head (s : GoString) (c : Byte) :
    (Split s c)[0]? = some (firstSegment s c) := by
  have hle := Count_le_length s c
  unfold Split
  apply genSplitLoop_head
  intro h
  simp only at h
  split at h <;> omega

/-! ## Lemmas on the sink -/

theorem NewSmtp_eq (username password subject host : GoString) (sendTo : List GoString) :
    NewSmtp username password subject host sendTo
      = some (builtSink username password subject host sendTo) := by
  have hsemi : utf8 ";" = [semicolon] := by decide
  have hnil : utf8 "" = [] := by decide
  have hmime : utf8 "MIME-Version: " ++ utf8 "1.0\r\n" = utf8 "MIME-Version: 1.0" ++ utf8 "\r\n" := by
    decide
  have hcrlf : utf8 "\r\n\r\n" = utf8 "\r\n" ++ utf8 "\r\n" := by decide
  have hmime2 : ∀ x : GoString, utf8 "MIME-Version: " ++ (utf8 "1.0\r\n" ++ x)
      = utf8 "MIME-Version: 1.0" ++ (utf8 "\r\n" ++ x) := by
    intro x
    rw [← List.append_assoc, hmime, List.append_assoc]
  have h1024 : ¬ ((1024 : Int) < 0) := by decide
  simp only [NewSmtp, Smtp.init, Buffer.Grow, Buffer.WriteString, Buffer.NewBufferString, Buffer.Len,
    Split_head, builtSink, specHeader, Join_eq_intercalate, hsemi, hnil, hcrlf, if_neg h1024,
    Option.bind_eq_bind, Option.some_bind, List.nil_append, List.append_assoc, hmime2]

theorem Buffer.Truncate_Write_Len (c : Buffer) (msg : List Byte) :
    (c.Write msg).Truncate c.Len = some c := by
  obtain ⟨buf⟩ := c
  have h1 : ¬ ((buf.length : Int) < 0 ∨ (buf.length : Int) > ((buf ++ msg).length : Int)) := by
    simp only [List.length_append, Nat.cast_add]
    omega
  simp only [Buffer.Truncate, Buffer.Write, Buffer.Len, if_neg h1]
  by_cases h0 : (buf.length : Int) = 0
  · have : buf = [] := List.length_eq_zero.mp (by exact_mod_cast h0)
    simp [this]
  · simp [if_neg h0]

theorem Write_headerOnly {E : Type} (s : Smtp) (c : Buffer) (msg : List Byte)
    (tr : SendMailCall → Option E) (hc : s.cache = some c) (hl : c.Len = s.headerLen) :
    s.Write msg tr = some
      { sink := s
        n := s.headerLen + msg.length
        err := tr { addr := s.host, a := s.auth, from_ := s.username, to_ := s.sendTo,
                    msg := c.buf ++ msg }
        sent := [{ addr := s.host, a := s.auth, from_ := s.username, to_ := s.sendTo,
                   msg := c.buf ++ msg }] } := by
  have ht := Buffer.Truncate_Write_Len c msg
  rw [hl] at ht
  have hlen : (c.Write msg).Len = s.headerLen + msg.length := by
    rw [← hl]
    simp [Buffer.Write, Buffer.Len]
  obtain ⟨u, p, h, rcpt, subj, cache, hdr, auth⟩ := s
  simp only at hc hl ht hlen
  subst hc
  simp only [Smtp.Write, Smtp.writeAppend, Smtp.writeCall, Smtp.writeTruncate,
    Option.bind_eq_bind, Option.some_bind, ht, hlen, Buffer.Bytes]
  rfl

theorem Write_builtSink {E : Type} (username password subject host : GoString)
    (sendTo : List GoString) (msg : List Byte) (tr : SendMailCall → Option E) :
    (builtSink username password subject host sendTo).Write msg tr = some
      { sink := builtSink username password subject host sendTo
        n := (specHeader username subject sendTo).length + msg.length
        err := tr (builtCall username password subject host sendTo msg)
        sent := [builtCall username password subject host sendTo msg] } :=
  Write_headerOnly (builtSink username password subject host sendTo)
    ⟨specHeader username subject sendTo⟩ msg tr rfl rfl

/-- A run of writes on the sink built from the given construction arguments
ends on that same sink, and every call returns the header length plus its body
length and the answer of the transport, after one call to the transport. -/
theorem WriteAll_builtSink {E : Type} (username password subject host : GoString)
    (sendTo : List GoString) (steps : List (Step E)) :
    WriteAll (builtSink username password subject host sendTo) steps = some
      (builtSink username password subject host sendTo,
       steps.map (fun st =>
        { sink := builtSink username password subject host sendTo
          n := (specHeader username subject sendTo).length + st.1.length
          err := st.2 (builtCall username password subject host sendTo st.1)
          sent := [builtCall username password subject host sendTo st.1] })) := by
  induction steps with
  | nil => rfl
  | cons st rest ih =>
    obtain ⟨msg, tr⟩ := st
    simp only [WriteAll, Write_builtSink, Option.bind_eq_bind, Option.some_bind, ih, List.map_cons]

/-! ## Lemmas on the first segment and on truncation -/

theorem firstSegment_split (s : GoString) (c : Byte) :
    ∃ rest, s = firstSegment s c ++ rest ∧ c ∉ firstSegment s c ∧
      (rest = [] ∨ rest.head? = some c) := by
  induction s with
  | nil => exact ⟨[], rfl, by simp [firstSegment], Or.inl rfl⟩
  | cons b tl ih =>
    by_cases hb : b = c
    · refine ⟨b :: tl, ?_, ?_, Or.inr ?_⟩ <;> simp [firstSegment, hb]
    · obtain ⟨rest, h1, h2, h3⟩ := ih
      refine ⟨rest, ?_, ?_, h3⟩
      · simp only [firstSegment, if_neg hb, List.cons_append]
        rw [← h1]
      · simp only [firstSegment, if_neg hb, List.mem_cons, not_or]
        exact ⟨fun h => hb h.symm, h2⟩

theorem firstSegment_of_not_mem {s : GoString} {c : Byte} (h : c ∉ s) :
    firstSegment s c = s := by
  induction s with
  | nil => rfl
  | cons b tl ih =>
    simp only [List.mem_cons, not_or] at h
    have hb : ¬ b = c := fun e => h.1 e.symm
    simp only [firstSegment, if_neg hb, ih h.2]

theorem Buffer.Truncate_of_le (b : Buffer) (n : Int) (h0 : 0 ≤ n) (hl : n ≤ b.Len) :
    b.Truncate n = some ⟨b.buf.take n.toNat⟩ := by
  have h1 : ¬ (n < 0 ∨ n > b.Len) := by omega
  simp only [Buffer.Truncate, if_neg h1]
  by_cases hn : n = 0
  · simp [hn]
  · simp [if_neg hn]

/-! ## The message handed to the transport -/

/-- C1: on a sink built by `NewSmtp`, for every finite sequence of `Write`
calls and whatever the transport answers to each, every call runs to its end
and hands the transport, on the k-th call, exactly the header built at
construction followed by the k-th body, with the relay address as server, the
account as sender and the recipients list unchanged. -/
theorem write_sends_header_then_body {E : Type}
    (username password subject host : GoString) (sendTo : List GoString)
    (steps : List (Step E)) :
    ∃ s0 hdr sN rs,
      NewSmtp username password subject host sendTo = some s0 ∧
      s0.cache = some hdr ∧
      WriteAll s0 steps = some (sN, rs) ∧
      rs.map (fun r => r.sent) = steps.map (fun st =>
        [{ addr := host, a := s0.auth, from_ := username, to_ := sendTo,
           msg := hdr.buf ++ st.1 }]) := by
  refine ⟨builtSink username password subject host sendTo,
    ⟨specHeader username subject sendTo⟩, _, _, NewSmtp_eq _ _ _ _ _, rfl,
    WriteAll_builtSink _ _ _ _ _ steps, ?_⟩
  rw [List.map_map]
  rfl

/-- C2: on a sink built by `NewSmtp`, after any sequence of writes, `Write`
returns as its integer the header length plus the length of the body, whatever
the transport answers; with a header of 120 bytes and the body "hello" that is
125, not 5. -/
theorem write_returns_header_plus_body {E : Type}
    (username password subject host : GoString) (sendTo : List GoString)
    (steps : List (Step E)) (msg : List Byte) (tr : SendMailCall → Option E) :
    ∃ s0 sN rs r,
      NewSmtp username password subject host sendTo = some s0 ∧
      WriteAll s0 steps = some (sN, rs) ∧
      sN.Write msg tr = some r ∧
      r.n = s0.headerLen + msg.length ∧
      (s0.headerLen = 120 → msg = utf8 "hello" → r.n = 125 ∧ r.n ≠ 5) := by
  refine ⟨builtSink username password subject host sendTo, _, _, _, NewSmtp_eq _ _ _ _ _,
    WriteAll_builtSink _ _ _ _ _ steps, Write_builtSink _ _ _ _ _ msg tr, rfl, ?_⟩
  intro h120 hmsg
  subst hmsg
  have h5 : ((utf8 "hello").length : Int) = 5 := by decide
  simp only [builtSink] at h120
  simp only [h120, h5]
  decide

/-- C2, at the sample sink, whose header is 120 bytes long: `Write` of "hello"
returns 125 when the transport fails. -/
theorem write_returns_header_plus_body_witness :
    ∃ r, sampleSink.Write (utf8 "hello") transportFails = some r ∧ r.n = 125 := by
  obtain ⟨s0, sN, rs, r, h0, hall, hw, -, h⟩ :=
    write_returns_header_plus_body sampleAccount sampleSecret sampleSubject sampleRelay
      sampleRecipients [] (utf8 "hello") transportFails
  rw [NewSmtp_eq] at h0
  cases h0
  simp only [WriteAll, Option.some.injEq, Prod.mk.injEq] at hall
  obtain ⟨rfl, -⟩ := hall
  exact ⟨r, hw, (h rfl rfl).1⟩

/-! ## The header -/

/-- C3: the buffer built by `NewSmtp` is exactly the To line (recipients
separated by `;`), the From line, the Subject line, the MIME-Version line, the
Content-Type line and a blank line, each ended by CRLF, and `headerLen` is the
length of that string. -/
theorem newSmtp_buffer_is_header
    (username password subject host : GoString) (sendTo : List GoString) :
    ∃ s c,
      NewSmtp username password subject host sendTo = some s ∧
      s.cache = some c ∧
      c.buf = utf8 "To: " ++ List.intercalate (utf8 ";") sendTo ++ utf8 "\r\n"
          ++ utf8 "From: " ++ username ++ utf8 "\r\n"
          ++ utf8 "Subject: " ++ subject ++ utf8 "\r\n"
          ++ utf8 "MIME-Version: 1.0" ++ utf8 "\r\n"
          ++ utf8 "Content-Type: text/plain; charset=\"utf-8\"" ++ utf8 "\r\n"
          ++ utf8 "\r\n" ∧
      s.headerLen = c.buf.length :=
  ⟨builtSink username password subject host sendTo, ⟨specHeader username subject sendTo⟩,
    NewSmtp_eq _ _ _ _ _, rfl, rfl, rfl⟩

/-- C4: on a sink in the header-only state, `Write` returns, and afterwards the
buffer is again the header alone, of length `headerLen`, whatever the transport
answered. -/
theorem write_restores_header_only {E : Type} (s : Smtp) (c : Buffer) (msg : List Byte)
    (tr : SendMailCall → Option E) (hc : s.cache = some c) (hl : c.Len = s.headerLen) :
    ∃ r c2,
      s.Write msg tr = some r ∧
      r.sink.cache = some c2 ∧
      c2.Len = r.sink.headerLen ∧
      r.sink.headerLen = s.headerLen ∧
      c2 = c :=
  ⟨_, c, Write_headerOnly s c msg tr hc hl, hc, hl, rfl, rfl⟩

/-- C4, at the sample sink, with a transport that fails. -/
theorem write_restores_header_only_witness :
    sampleSink.cache = some sampleHeader ∧ sampleHeader.Len = sampleSink.headerLen ∧
    ∃ r c2,
      sampleSink.Write (utf8 "hello") transportFails = some r ∧
      r.sink.cache = some c2 ∧
      c2.Len = r.sink.headerLen ∧
      r.sink.headerLen = sampleSink.headerLen ∧
      c2 = sampleHeader :=
  ⟨rfl, rfl, write_restores_header_only sampleSink sampleHeader (utf8 "hello") transportFails
    rfl rfl⟩

/-- C5: in every state reached from a freshly built sink by a sequence of
writes, and in the state inside a further `Write` after the body is appended
and before the truncation, the bytes `[0, headerLen)` of the buffer are the
header built at construction. -/
theorem header_range_invariant {E : Type}
    (username password subject host : GoString) (sendTo : List GoString)
    (steps : List (Step E)) (msg : List Byte) :
    ∃ s0 hdr sN rs s1,
      NewSmtp username password subject host sendTo = some s0 ∧
      s0.cache = some hdr ∧
      WriteAll s0 steps = some (sN, rs) ∧
      sN.headerLen = s0.headerLen ∧
      headerRange sN = some hdr.buf ∧
      sN.writeAppend msg = some s1 ∧
      s1.headerLen = s0.headerLen ∧
      headerRange s1 = some hdr.buf := by
  refine ⟨builtSink username password subject host sendTo,
    ⟨specHeader username subject sendTo⟩, _, _, _, NewSmtp_eq _ _ _ _ _, rfl,
    WriteAll_builtSink _ _ _ _ _ steps, rfl, ?_, rfl, rfl, ?_⟩
  · simp [headerRange, builtSink]
  · simp [headerRange, builtSink, Buffer.Write]

/-! ## The results of `Write` -/

/-- C6: the error returned by `Write` is what the one call to the transport
returned: nil exactly when the transport reported success, the same error value
otherwise, and the transport is called once. -/
theorem write_returns_transport_error {E : Type}
    (username password subject host : GoString) (sendTo : List GoString)
    (steps : List (Step E)) (msg : List Byte) (tr : SendMailCall → Option E) :
    ∃ s0 sN rs r call,
      NewSmtp username password subject host sendTo = some s0 ∧
      WriteAll s0 steps = some (sN, rs) ∧
      sN.Write msg tr = some r ∧
      r.sent = [call] ∧
      r.err = tr call ∧
      (r.err = none ↔ tr call = none) :=
  ⟨builtSink username password subject host sendTo, _, _, _, _, NewSmtp_eq _ _ _ _ _,
    WriteAll_builtSink _ _ _ _ _ steps, Write_builtSink _ _ _ _ _ msg tr, rfl, rfl, Iff.rfl⟩

set_option maxRecDepth 8192 in
/-- C7: on the sink built from the sample inputs, `Write` of the 5-byte body
"hello" returns 125, which is not the byte count of the body. -/
theorem write_count_exceeds_body :
    ∃ s r,
      NewSmtp sampleAccount sampleSecret sampleSubject sampleRelay sampleRecipients = some s ∧
      s.Write (utf8 "hello") transportOk = some r ∧
      r.n = 125 ∧ r.n ≠ ((utf8 "hello").length : Int) :=
  ⟨_, _, NewSmtp_eq _ _ _ _ _, Write_builtSink _ _ _ _ _ _ _, by decide, by decide⟩

/-! ## The To line and the authentication host -/

/-- C8: the header built at construction begins with "To: ", then the
recipients in their order separated by one `;` and nothing else, then CRLF; for
the recipients a@x.com and b@y.com the line is "To: a@x.com;b@y.com", and for
no recipient the sink is still built and the line is "To: " with no value. -/
theorem header_begins_with_to_line
    (username password subject host : GoString) (sendTo : List GoString) :
    ∃ s c rest,
      NewSmtp username password subject host sendTo = some s ∧
      s.cache = some c ∧
      c.buf = utf8 "To: " ++ List.intercalate (utf8 ";") sendTo ++ utf8 "\r\n" ++ rest ∧
      (sendTo = [utf8 "a@x.com", utf8 "b@y.com"] →
        c.buf = utf8 "To: a@x.com;b@y.com" ++ utf8 "\r\n" ++ rest) ∧
      (sendTo = [] → c.buf = utf8 "To: " ++ utf8 "\r\n" ++ rest) := by
  refine ⟨builtSink username password subject host sendTo, ⟨specHeader username subject sendTo⟩,
    utf8 "From: " ++ username ++ utf8 "\r\n"
      ++ utf8 "Subject: " ++ subject ++ utf8 "\r\n"
      ++ utf8 "MIME-Version: 1.0" ++ utf8 "\r\n"
      ++ utf8 "Content-Type: text/plain; charset=\"utf-8\"" ++ utf8 "\r\n" ++ utf8 "\r\n",
    NewSmtp_eq _ _ _ _ _, rfl, ?_, ?_, ?_⟩
  · simp only [specHeader, List.append_assoc]
    rfl
  · intro h
    subst h
    simp only [specHeader, List.append_assoc]
    rfl
  · intro h
    subst h
    simp only [specHeader, List.append_assoc]
    rfl

/-- C8, at the two recipients a@x.com and b@y.com. -/
theorem header_begins_with_to_line_witness :
    ∃ s c rest,
      NewSmtp sampleAccount sampleSecret sampleSubject sampleRelay
        [utf8 "a@x.com", utf8 "b@y.com"] = some s ∧
      s.cache = some c ∧
      c.buf = utf8 "To: a@x.com;b@y.com" ++ utf8 "\r\n" ++ rest := by
  obtain ⟨s, c, rest, h1, h2, -, h3, -⟩ :=
    header_begins_with_to_line sampleAccount sampleSecret sampleSubject sampleRelay
      [utf8 "a@x.com", utf8 "b@y.com"]
  exact ⟨s, c, rest, h1, h2, h3 rfl⟩

/-- C9: the host of the authentication value built at construction is the
first segment of the relay address split at `:`, that is its longest prefix
without a colon: the whole address when it has no colon, and
"smtp.example.com" for both "smtp.example.com:587" and "smtp.example.com". -/
theorem auth_host_is_first_segment
    (username password subject host : GoString) (sendTo : List GoString) :
    ∃ s a rest,
      NewSmtp username password subject host sendTo = some s ∧
      s.auth = some a ∧
      (Split host colon)[0]? = some a.host ∧
      host = a.host ++ rest ∧ colon ∉ a.host ∧ (rest = [] ∨ rest.head? = some colon) ∧
      (colon ∉ host → a.host = host) ∧
      (host = utf8 "smtp.example.com:587" → a.host = utf8 "smtp.example.com") ∧
      (host = utf8 "smtp.example.com" → a.host = utf8 "smtp.example.com") := by
  obtain ⟨rest, h1, h2, h3⟩ := firstSegment_split host colon
  refine ⟨builtSink username password subject host sendTo,
    PlainAuth [] username password (firstSegment host colon), rest,
    NewSmtp_eq _ _ _ _ _, rfl, Split_head host colon, h1, h2, h3, ?_, ?_, ?_⟩
  · intro h
    exact firstSegment_of_not_mem h
  · intro h
    subst h
    show firstSegment (utf8 "smtp.example.com:587") colon = utf8 "smtp.example.com"
    decide
  · intro h
    subst h
    show firstSegment (utf8 "smtp.example.com") colon = utf8 "smtp.example.com"
    decide

set_option maxRecDepth 8192 in
/-- C9, at a relay address without a port. -/
theorem auth_host_is_first_segment_witness :
    colon ∉ sampleRelayNoPort ∧
    ∃ s a,
      NewSmtp sampleAccount sampleSecret sampleSubject sampleRelayNoPort sampleRecipients
        = some s ∧
      s.auth = some a ∧ a.host = sampleRelayNoPort := by
  have hno : colon ∉ sampleRelayNoPort := by decide
  obtain ⟨s, a, rest, h1, h2, -, -, -, -, h3, -⟩ :=
    auth_host_is_first_segment sampleAccount sampleSecret sampleSubject sampleRelayNoPort
      sampleRecipients
  exact ⟨hno, s, a, h1, h2, h3 hno⟩

/-! ## Truncation -/

/-- C10: on a buffer at least `headerLen` long, the truncation of line 107
succeeds and leaves the first `headerLen` bytes, and a second truncation right
after it succeeds and changes nothing. -/
theorem truncate_twice_eq_once (s : Smtp) (c : Buffer) (hc : s.cache = some c)
    (h0 : 0 ≤ s.headerLen) (hl : s.headerLen ≤ c.Len) :
    ∃ s1 c1,
      s.writeTruncate = some s1 ∧
      s1.writeTruncate = some s1 ∧
      s1.cache = some c1 ∧
      c1.Len = s.headerLen ∧
      c1.buf = c.buf.take s.headerLen.toNat := by
  have hlen : (⟨c.buf.take s.headerLen.toNat⟩ : Buffer).Len = s.headerLen := by
    simp only [Buffer.Len] at hl ⊢
    simp only [List.length_take]
    omega
  have ht1 := Buffer.Truncate_of_le c s.headerLen h0 hl
  have ht2 := Buffer.Truncate_of_le ⟨c.buf.take s.headerLen.toNat⟩ s.headerLen h0 (le_of_eq hlen.symm)
  simp only [List.take_take, min_self] at ht2
  refine ⟨{ s with cache := some ⟨c.buf.take s.headerLen.toNat⟩ }, _, ?_, ?_, rfl, hlen, rfl⟩
  · simp only [Smtp.writeTruncate, hc, Option.bind_eq_bind, Option.some_bind, ht1]
  · simp only [Smtp.writeTruncate, Option.bind_eq_bind, Option.some_bind, ht2]

set_option maxRecDepth 8192 in
/-- C10, at the sample sink with the body "hello" after its header. -/
theorem truncate_twice_eq_once_witness :
    samplePending.cache = some (sampleHeader.Write (utf8 "hello")) ∧
    0 ≤ samplePending.headerLen ∧
    samplePending.headerLen ≤ (sampleHeader.Write (utf8 "hello")).Len ∧
    ∃ s1 c1,
      samplePending.writeTruncate = some s1 ∧
      s1.writeTruncate = some s1 ∧
      s1.cache = some c1 ∧
      c1.Len = samplePending.headerLen ∧
      c1.buf = (sampleHeader.Write (utf8 "hello")).buf.take samplePending.headerLen.toNat :=
  ⟨rfl, by decide, by decide,
    truncate_twice_eq_once samplePending (sampleHeader.Write (utf8 "hello")) rfl
      (by decide) (by decide)⟩


/-! ## Lemmas on frames, lengths and the blank line -/

theorem Write_sink_eq {E : Type} {s : Smtp} {msg : List Byte} {tr : SendMailCall → Option E}
    {r : WriteResult E} (h : s.Write msg tr = some r) :
    ∃ c, r.sink = { s with cache := some c } := by
  obtain ⟨u, p, hst, rcpt, subj, cache, hdr, auth⟩ := s
  cases cache with
  | none => simp [Smtp.Write, Smtp.writeAppend] at h
  | some c =>
    simp only [Smtp.Write, Smtp.writeAppend, Smtp.writeCall, Smtp.writeTruncate,
      Option.bind_eq_bind, Option.some_bind] at h
    cases ht : (c.Write msg).Truncate hdr with
    | none => simp [ht] at h
    | some c2 =>
      simp only [ht, Option.some_bind, Option.some.injEq] at h
      subst h
      exact ⟨c2, rfl⟩

theorem WriteAll_headerLen {E : Type} (steps : List (Step E)) (s sN : Smtp)
    (rs : List (WriteResult E)) (h : WriteAll s steps = some (sN, rs)) :
    sN.headerLen = s.headerLen ∧ ∀ r ∈ rs, r.sink.headerLen = s.headerLen := by
  induction steps generalizing s sN rs with
  | nil =>
    simp only [WriteAll, Option.some.injEq, Prod.mk.injEq] at h
    obtain ⟨rfl, rfl⟩ := h
    simp
  | cons st rest ih =>
    obtain ⟨msg, tr⟩ := st
    simp only [WriteAll, Option.bind_eq_bind] at h
    cases hw : s.Write msg tr with
    | none => simp [hw] at h
    | some r =>
      simp only [hw, Option.some_bind] at h
      cases hr : WriteAll r.sink rest with
      | none => simp [hr] at h
      | some pr =>
        obtain ⟨s2, rs2⟩ := pr
        simp only [hr, Option.some_bind, Option.some.injEq, Prod.mk.injEq] at h
        obtain ⟨rfl, rfl⟩ := h
        obtain ⟨c, hc⟩ := Write_sink_eq hw
        have hlen : r.sink.headerLen = s.headerLen := by rw [hc]
        obtain ⟨h1, h2⟩ := ih r.sink s2 rs2 hr
        refine ⟨h1.trans hlen, ?_⟩
        intro x hx
        rcases List.mem_cons.mp hx with rfl | hx
        · exact hlen
        · exact (h2 x hx).trans hlen

theorem specHeader_length (account subject : GoString) (recipients : List GoString) :
    (specHeader account subject recipients).length
      = 89 + (List.intercalate (utf8 ";") recipients).length + account.length
          + subject.length := by
  have h1 : (utf8 "To: ").length = 4 := by decide
  have h2 : (utf8 "\r\n").length = 2 := by decide
  have h3 : (utf8 "From: ").length = 6 := by decide
  have h4 : (utf8 "Subject: ").length = 9 := by decide
  have h5 : (utf8 "MIME-Version: 1.0").length = 17 := by decide
  have h6 : (utf8 "Content-Type: text/plain; charset=\"utf-8\"").length = 41 := by decide
  have h7 : utf8 ";" = [semicolon] := by decide
  simp only [specHeader, List.length_append, h1, h2, h3, h4, h5, h6, h7]
  omega

theorem Split_length_pos (s : GoString) (c : Byte) : 0 < (Split s c).length := by
  have h := Split_head s c
  cases hs : Split s c with
  | nil => simp [hs] at h
  | cons a l => simp

theorem take_four_head {b : Byte} {l : List Byte} (h : (b :: l).take 4 = [cr, lf, cr, lf]) :
    b = cr ∧ l.head? = some lf := by
  cases l with
  | nil => simp at h
  | cons c l2 =>
    simp only [List.take_succ_cons, List.cons.injEq] at h
    exact ⟨h.1, by simp [h.2.1]⟩

theorem blankLineEnd_append (x m : List Byte) (hx : lf ∉ x) (hm : m.head? ≠ some lf) :
    blankLineEnd (x ++ m) = (blankLineEnd m).map (· + x.length) := by
  induction x with
  | nil => simp
  | cons b x2 ih =>
    simp only [List.mem_cons, not_or] at hx
    have hhead : (x2 ++ m).head? ≠ some lf := by
      cases x2 with
      | nil => simpa using hm
      | cons c x3 =>
        simp only [List.mem_cons, not_or] at hx
        simp only [List.cons_append, List.head?_cons, ne_eq, Option.some.injEq]
        exact fun e => hx.2.1 e.symm
    have hne : ¬ ((b :: (x2 ++ m)).take 4 = [cr, lf, cr, lf]) :=
      fun e => hhead (take_four_head e).2
    show blankLineEnd (b :: (x2 ++ m)) = _
    rw [blankLineEnd, if_neg hne, ih hx.2, Option.map_map]
    congr 1

theorem blankLineEnd_crlf (m : List Byte) (hm : m.head? ≠ some cr) :
    blankLineEnd (cr :: lf :: m) = (blankLineEnd m).map (· + 2) := by
  have h1 : ¬ ((cr :: lf :: m).take 4 = [cr, lf, cr, lf]) := by
    intro e
    cases m with
    | nil => simp at e
    | cons c m2 =>
      simp only [List.take_succ_cons, List.cons.injEq, true_and] at e
      exact hm (by simp [e.1])
  have h2 : ¬ ((lf :: m).take 4 = [cr, lf, cr, lf]) := by
    intro e
    have := (take_four_head e).1
    revert this
    decide
  rw [blankLineEnd, if_neg h1, blankLineEnd, if_neg h2, Option.map_map]
  congr 1

theorem blankLineEnd_blank (body : List Byte) :
    blankLineEnd (cr :: lf :: cr :: lf :: body) = some 4 := by
  simp [blankLineEnd]

theorem intercalate_no_lf (recipients : List GoString) (h : ∀ r ∈ recipients, lf ∉ r) :
    lf ∉ List.intercalate (utf8 ";") recipients := by
  have hs : utf8 ";" = [semicolon] := by decide
  have hne : lf ≠ semicolon := by decide
  rw [hs]
  induction recipients with
  | nil => simp [List.intercalate]
  | cons a rest ih =>
    have ha := h a (List.mem_cons_self _ _)
    have hr : ∀ r ∈ rest, lf ∉ r := fun r hr => h r (List.mem_cons_of_mem _ hr)
    cases rest with
    | nil => simpa [List.intercalate] using ha
    | cons b rest2 =>
      have ih2 := ih hr
      simp only [List.intercalate, List.intersperse, List.flatten_cons, List.mem_append,
        List.mem_singleton, not_or] at ih2 ⊢
      exact ⟨ha, hne, ih2⟩

theorem blankLineEnd_specHeader (account subject : GoString) (recipients : List GoString)
    (body : List Byte) (hA : lf ∉ account) (hS : lf ∉ subject)
    (hR : ∀ r ∈ recipients, lf ∉ r) :
    blankLineEnd (specHeader account subject recipients ++ body)
      = some (specHeader account subject recipients).length := by
  have hJ := intercalate_no_lf recipients hR
  have hsemi : utf8 ";" = [semicolon] := by decide
  rw [hsemi] at hJ
  have hcrlf : utf8 "\r\n" = [cr, lf] := by decide
  have e : specHeader account subject recipients ++ body
      = (utf8 "To: " ++ List.intercalate [semicolon] recipients) ++ (cr :: lf ::
        ((utf8 "From: " ++ account) ++ (cr :: lf ::
        ((utf8 "Subject: " ++ subject) ++ (cr :: lf ::
        (utf8 "MIME-Version: 1.0" ++ (cr :: lf ::
        (utf8 "Content-Type: text/plain; charset=\"utf-8\"" ++
          (cr :: lf :: cr :: lf :: body))))))))) := by
    simp only [specHeader, hcrlf, List.append_assoc, List.cons_append, List.nil_append]
  have n1 : lf ∉ utf8 "To: " ++ List.intercalate [semicolon] recipients := by
    have : lf ∉ utf8 "To: " := by decide
    simp only [List.mem_append, not_or]
    exact ⟨this, hJ⟩
  have n2 : lf ∉ utf8 "From: " ++ account := by
    have : lf ∉ utf8 "From: " := by decide
    simp only [List.mem_append, not_or]
    exact ⟨this, hA⟩
  have n3 : lf ∉ utf8 "Subject: " ++ subject := by
    have : lf ∉ utf8 "Subject: " := by decide
    simp only [List.mem_append, not_or]
    exact ⟨this, hS⟩
  have n4 : lf ∉ utf8 "MIME-Version: 1.0" := by decide
  have n5 : lf ∉ utf8 "Content-Type: text/plain; charset=\"utf-8\"" := by decide
  have hd : ∀ m : List Byte, (cr :: m).head? ≠ some lf := by
    intro m
    simp only [List.head?_cons, ne_eq, Option.some.injEq]
    decide
  have k2 : ∀ m : List Byte, ((utf8 "From: " ++ account) ++ m).head? ≠ some cr := by
    intro m
    have : utf8 "From: " = 70 :: (utf8 "rom: ") := by decide
    rw [this]
    simp only [List.cons_append, List.head?_cons, ne_eq, Option.some.injEq]
    decide
  have k3 : ∀ m : List Byte, ((utf8 "Subject: " ++ subject) ++ m).head? ≠ some cr := by
    intro m
    have : utf8 "Subject: " = 83 :: (utf8 "ubject: ") := by decide
    rw [this]
    simp only [List.cons_append, List.head?_cons, ne_eq, Option.some.injEq]
    decide
  have k4 : ∀ m : List Byte, (utf8 "MIME-Version: 1.0" ++ m).head? ≠ some cr := by
    intro m
    have : utf8 "MIME-Version: 1.0" = 77 :: (utf8 "IME-Version: 1.0") := by decide
    rw [this]
    simp only [List.cons_append, List.head?_cons, ne_eq, Option.some.injEq]
    decide
  have k5 : ∀ m : List Byte,
      (utf8 "Content-Type: text/plain; charset=\"utf-8\"" ++ m).head? ≠ some cr := by
    intro m
    have : utf8 "Content-Type: text/plain; charset=\"utf-8\""
        = 67 :: (utf8 "ontent-Type: text/plain; charset=\"utf-8\"") := by decide
    rw [this]
    simp only [List.cons_append, List.head?_cons, ne_eq, Option.some.injEq]
    decide
  have hlen := congrArg List.length e
  simp only [List.length_append, List.length_cons] at hlen
  rw [e, blankLineEnd_append _ _ n1 (hd _), blankLineEnd_crlf _ (k2 _),
    blankLineEnd_append _ _ n2 (hd _), blankLineEnd_crlf _ (k3 _),
    blankLineEnd_append _ _ n3 (hd _), blankLineEnd_crlf _ (k4 _),
    blankLineEnd_append _ _ n4 (hd _), blankLineEnd_crlf _ (k5 _),
    blankLineEnd_append _ _ n5 (hd _), blankLineEnd_blank]
  simp only [Option.map_some', List.length_append, Option.some.injEq]
  omega

/-! ## What `Write` leaves unchanged -/

/-- C11: a `Write` that returns leaves `headerLen`, `username`, `password`,
`host`, `sendTo`, `subject` and `auth` as they were, whatever the transport
answers; along any run of writes `headerLen` keeps its value, and on a sink
built by `NewSmtp` every run returns with the `headerLen` fixed at
construction. -/
theorem write_changes_only_cache {E : Type}
    (username password subject host : GoString) (sendTo : List GoString) :
    (∀ (s : Smtp) (msg : List Byte) (tr : SendMailCall → Option E) (r : WriteResult E),
      s.Write msg tr = some r →
        r.sink.headerLen = s.headerLen ∧ r.sink.username = s.username ∧
        r.sink.password = s.password ∧ r.sink.host = s.host ∧
        r.sink.sendTo = s.sendTo ∧ r.sink.subject = s.subject ∧ r.sink.auth = s.auth) ∧
    (∀ (s : Smtp) (steps : List (Step E)) (sN : Smtp) (rs : List (WriteResult E)),
      WriteAll s steps = some (sN, rs) →
        sN.headerLen = s.headerLen ∧ ∀ r ∈ rs, r.sink.headerLen = s.headerLen) ∧
    (∀ steps : List (Step E), ∃ s0 sN rs,
      NewSmtp username password subject host sendTo = some s0 ∧
      WriteAll s0 steps = some (sN, rs) ∧
      sN.headerLen = s0.headerLen ∧ ∀ r ∈ rs, r.sink.headerLen = s0.headerLen) := by
  refine ⟨?_, ?_, ?_⟩
  · intro s msg tr r h
    obtain ⟨c, hc⟩ := Write_sink_eq h
    rw [hc]
    exact ⟨rfl, rfl, rfl, rfl, rfl, rfl, rfl⟩
  · intro s steps sN rs h
    exact WriteAll_headerLen steps s sN rs h
  · intro steps
    have hall := WriteAll_builtSink username password subject host sendTo steps
    obtain ⟨h1, h2⟩ := WriteAll_headerLen steps _ _ _ hall
    exact ⟨_, _, _, NewSmtp_eq _ _ _ _ _, hall, h1, h2⟩

/-- C11, at the sample sink, with a transport that fails. -/
theorem write_changes_only_cache_witness :
    ∃ r, sampleSink.Write (utf8 "hello") transportFails = some r ∧
      r.sink.headerLen = sampleSink.headerLen ∧ r.sink.username = sampleSink.username ∧
      r.sink.password = sampleSink.password ∧ r.sink.host = sampleSink.host ∧
      r.sink.sendTo = sampleSink.sendTo ∧ r.sink.subject = sampleSink.subject ∧
      r.sink.auth = sampleSink.auth :=
  ⟨_, Write_builtSink _ _ _ _ _ _ _,
    (write_changes_only_cache sampleAccount sampleSecret sampleSubject sampleRelay
      sampleRecipients).1 sampleSink (utf8 "hello") transportFails _
      (Write_builtSink _ _ _ _ _ _ _)⟩

/-! ## Construction -/

/-- C12: `NewSmtp` returns a sink for every account, password, subject, relay
address and recipients list; element 0 of the relay address split at `:` is
always there, since the split of any string has at least one segment. -/
theorem newSmtp_always_returns
    (username password subject host : GoString) (sendTo : List GoString) :
    (∃ s, NewSmtp username password subject host sendTo = some s) ∧
    (∃ seg, (Split host colon)[0]? = some seg) ∧
    (∀ (str : GoString) (sep : Byte), 0 < (Split str sep).length) ∧
    (∃ s, NewSmtp username password subject [] [] = some s) :=
  ⟨⟨_, NewSmtp_eq _ _ _ _ _⟩, ⟨_, Split_head host colon⟩, Split_length_pos,
    ⟨_, NewSmtp_eq _ _ _ _ _⟩⟩

/-! ## The wire format -/

set_option maxRecDepth 8192 in
/-- C13, refuted as stated: with the subject "a CRLF CRLF b" the first blank
line of the sent message ends at offset 54, inside the header of 121 bytes, and
what follows it is not the body. -/
theorem blank_line_inside_subject :
    ∃ s r call,
      NewSmtp sampleAccount sampleSecret sampleSubjectBlankLine sampleRelay sampleRecipients
        = some s ∧
      s.Write (utf8 "hello") transportOk = some r ∧
      r.sent = [call] ∧
      s.headerLen = 121 ∧
      blankLineEnd call.msg = some 54 ∧
      call.msg.drop 54 ≠ utf8 "hello" :=
  ⟨_, _, _, NewSmtp_eq _ _ _ _ _, Write_builtSink _ _ _ _ _ _ _, rfl, by decide, by decide,
    by decide⟩

/-- C13, amended: when the account, the subject and every recipient hold no
line feed byte, the message sent by `Write` is the five header lines, the blank
line and then the body, its first CRLF CRLF ends at offset `headerLen`, and the
bytes after it are exactly the body. -/
theorem blank_line_ends_header {E : Type}
    (username password subject host : GoString) (sendTo : List GoString)
    (steps : List (Step E)) (msg : List Byte) (tr : SendMailCall → Option E)
    (hA : lf ∉ username) (hS : lf ∉ subject) (hR : ∀ r ∈ sendTo, lf ∉ r) :
    ∃ s0 sN rs r call,
      NewSmtp username password subject host sendTo = some s0 ∧
      WriteAll s0 steps = some (sN, rs) ∧
      sN.Write msg tr = some r ∧
      r.sent = [call] ∧
      call.msg = utf8 "To: " ++ List.intercalate (utf8 ";") sendTo ++ utf8 "\r\n"
          ++ utf8 "From: " ++ username ++ utf8 "\r\n"
          ++ utf8 "Subject: " ++ subject ++ utf8 "\r\n"
          ++ utf8 "MIME-Version: 1.0" ++ utf8 "\r\n"
          ++ utf8 "Content-Type: text/plain; charset=\"utf-8\"" ++ utf8 "\r\n"
          ++ utf8 "\r\n" ++ msg ∧
      (s0.headerLen.toNat : Int) = s0.headerLen ∧
      blankLineEnd call.msg = some s0.headerLen.toNat ∧
      call.msg.drop s0.headerLen.toNat = msg := by
  refine ⟨builtSink username password subject host sendTo, _, _, _, _, NewSmtp_eq _ _ _ _ _,
    WriteAll_builtSink _ _ _ _ _ steps, Write_builtSink _ _ _ _ _ msg tr, rfl, rfl, ?_, ?_, ?_⟩
  · simp [builtSink]
  · simp only [builtSink, builtCall, Int.toNat_ofNat]
    exact blankLineEnd_specHeader username subject sendTo msg hA hS hR
  · simp [builtSink, builtCall]

set_option maxRecDepth 8192 in
/-- C13 amended, at the sample inputs, which hold no line feed. -/
theorem blank_line_ends_header_witness :
    lf ∉ sampleAccount ∧ lf ∉ sampleSubject ∧ (∀ r ∈ sampleRecipients, lf ∉ r) ∧
    ∃ s0 r call,
      NewSmtp sampleAccount sampleSecret sampleSubject sampleRelay sampleRecipients = some s0 ∧
      s0.Write (utf8 "hello") transportOk = some r ∧
      r.sent = [call] ∧
      blankLineEnd call.msg = some s0.headerLen.toNat ∧
      call.msg.drop s0.headerLen.toNat = utf8 "hello" := by
  have hA : lf ∉ sampleAccount := by decide
  have hS : lf ∉ sampleSubject := by decide
  have hR : ∀ r ∈ sampleRecipients, lf ∉ r := by decide
  obtain ⟨s0, sN, rs, r, call, h0, hall, hw, hs, -, -, hb, hd⟩ :=
    blank_line_ends_header sampleAccount sampleSecret sampleSubject sampleRelay
      sampleRecipients [] (utf8 "hello") transportOk hA hS hR
  simp only [WriteAll, Option.some.injEq, Prod.mk.injEq] at hall
  obtain ⟨rfl, -⟩ := hall
  exact ⟨hA, hS, hR, s0, r, call, h0, hw, hs, hb, hd⟩

/-! ## The host of a relay address with a port -/

set_option maxRecDepth 8192 in
/-- C14: for the relay address "[::1]:25", which is the host "[::1]", a colon
and the colon-free port "25", the authentication host built at construction is
"[", not the host "[::1]". -/
theorem auth_host_of_ipv6_relay :
    sampleRelayIPv6 = utf8 "[::1]" ++ colon :: utf8 "25" ∧ colon ∉ utf8 "25" ∧
    ∃ s a,
      NewSmtp sampleAccount sampleSecret sampleSubject sampleRelayIPv6 sampleRecipients
        = some s ∧
      s.auth = some a ∧ a.host = utf8 "[" ∧ a.host ≠ utf8 "[::1]" :=
  ⟨by decide, by decide, _, _, NewSmtp_eq _ _ _ _ _, rfl, by decide, by decide⟩

/-! ## Lengths -/

/-- C15: `headerLen` is 89 plus the byte lengths of the recipients joined with
`;`, of the account and of the subject, so it is at least 89; the integer that
`Write` returns is at least the body length plus 89, so it is never 0 and is
greater than the body length. -/
theorem headerLen_is_89_plus_fields {E : Type}
    (username password subject host : GoString) (sendTo : List GoString)
    (steps : List (Step E)) (msg : List Byte) (tr : SendMailCall → Option E) :
    ∃ s0 sN rs r,
      NewSmtp username password subject host sendTo = some s0 ∧
      s0.headerLen = 89 + ((List.intercalate (utf8 ";") sendTo).length : Int)
        + (username.length : Int) + (subject.length : Int) ∧
      89 ≤ s0.headerLen ∧
      WriteAll s0 steps = some (sN, rs) ∧
      sN.Write msg tr = some r ∧
      (msg.length : Int) + 89 ≤ r.n ∧ r.n ≠ 0 ∧ (msg.length : Int) < r.n := by
  have hlen := specHeader_length username subject sendTo
  refine ⟨builtSink username password subject host sendTo, _, _, _, NewSmtp_eq _ _ _ _ _, ?_, ?_,
    WriteAll_builtSink _ _ _ _ _ steps, Write_builtSink _ _ _ _ _ msg tr, ?_, ?_, ?_⟩
  all_goals simp only [builtSink]
  all_goals omega

/-! ## The range of the truncation -/

/-- C16: in every state reached from a freshly built sink by a sequence of
writes, when a further `Write` has appended its body and reaches
`Truncate(headerLen)`, `0 <= headerLen <= buffer length` holds, which is
exactly when `Truncate` does not panic, and the truncation returns. -/
theorem truncate_within_range {E : Type}
    (username password subject host : GoString) (sendTo : List GoString)
    (steps : List (Step E)) (msg : List Byte) :
    (∃ s0 sN rs s1 c1 s2,
      NewSmtp username password subject host sendTo = some s0 ∧
      WriteAll s0 steps = some (sN, rs) ∧
      sN.writeAppend msg = some s1 ∧
      s1.cache = some c1 ∧
      0 ≤ s1.headerLen ∧ s1.headerLen ≤ c1.Len ∧
      s1.writeTruncate = some s2) ∧
    (∀ (b : Buffer) (n : Int), (0 ≤ n ∧ n ≤ b.Len) ↔ b.Truncate n ≠ none) := by
  constructor
  · have ht := Buffer.Truncate_Write_Len ⟨specHeader username subject sendTo⟩ msg
    refine ⟨builtSink username password subject host sendTo, _, _, _, _,
      builtSink username password subject host sendTo, NewSmtp_eq _ _ _ _ _,
      WriteAll_builtSink _ _ _ _ _ steps, rfl, rfl, ?_, ?_, ?_⟩
    · simp [builtSink]
    · simp [builtSink, Buffer.Write, Buffer.Len]
    · simp only [Smtp.writeTruncate, builtSink, Option.bind_eq_bind, Option.some_bind]
      simp only [Buffer.Len] at ht
      rw [ht]
      rfl
  · intro b n
    unfold Buffer.Truncate
    constructor
    · intro h
      have h1 : ¬ (n < 0 ∨ n > b.Len) := by omega
      rw [if_neg h1]
      split <;> simp
    · intro h
      by_contra hc
      have h1 : n < 0 ∨ n > b.Len := by omega
      exact h (if_pos h1)

end writer
